import Mathlib

/-!
Verification of the find_malloc tool: a wasm-module rewriter that locates a
memory allocator function through an ordered chain of heuristics (export scan,
debug-name scan, two call-pattern heuristics anchored at WASI imports) and, when
a candidate is found, appends an export entry named malloc for it.

The definitions below are a shallow embedding of src/main.rs.  Lazily decoded
section payloads are modelled by the Blob type: a payload is either a decode
error or an already-decoded value; try_contents mirrors the fallible accessor.
-/

deriving instance DecidableEq for Except

namespace FindMalloc

/-- Decode-failure token of the external codec, opaque to this tool. -/
structure DecodeError where
  code : Nat
deriving DecidableEq, Repr

/-- Lazily decoded section payload: decoding either fails or yields a value. -/
inductive Blob (α : Type) where
  | err (e : DecodeError)
  | val (a : α)
deriving DecidableEq, Repr

/-- Fallible accessor for a lazily decoded payload. -/
def Blob.try_contents : Blob α → Except DecodeError α
  | .err e => .error e
  | .val a => .ok a

/-- True when the payload decodes successfully. -/
def Blob.isVal : Blob α → Bool
  | .err _ => false
  | .val _ => true

/-- Index into the combined (imports then locals) function index space. -/
structure FuncId where
  index : Nat
deriving DecidableEq, Repr

/-- Index into the type section. -/
structure TypeId where
  index : Nat
deriving DecidableEq, Repr

/-- Wasm value types; only i32 matters to the detection engine. -/
inductive ValueType where
  | i32
  | i64
  | f32
  | f64
  | v128
deriving DecidableEq, Repr

/-- Function type: parameter list and result list. -/
structure FuncType where
  params : List ValueType
  results : List ValueType
deriving DecidableEq, Repr

/-- Import path: host module name and field name. -/
structure ImportPath where
  module : String
  name : String
deriving DecidableEq, Repr

/-- Import descriptor variants. -/
inductive ImportDesc where
  | func (t : TypeId)
  | table (n : Nat)
  | mem (n : Nat)
  | global (n : Nat)
deriving DecidableEq, Repr

/-- One import entry. -/
structure Import where
  path : ImportPath
  desc : ImportDesc
deriving DecidableEq, Repr

/-- Export descriptor variants. -/
inductive ExportDesc where
  | func (f : FuncId)
  | table (n : Nat)
  | mem (n : Nat)
  | global (n : Nat)
deriving DecidableEq, Repr

/-- One export entry. -/
structure Export where
  name : String
  desc : ExportDesc
deriving DecidableEq, Repr

/-- Instructions: only calls matter to the engine; everything else is opaque. -/
inductive Instruction where
  | call (func_id : FuncId)
  | other (opcode : Nat)
deriving DecidableEq, Repr

/-- Body of one local function: locals declarations and a flat instruction list. -/
structure FuncBody where
  locals : List (Nat × ValueType)
  expr : List Instruction
deriving DecidableEq, Repr

/-- One entry of the function-name map of the debug-name section. -/
structure NameAssoc where
  index : FuncId
  value : String
deriving DecidableEq, Repr

/-- Function-name map of the debug-name section. -/
structure NameMap where
  items : List NameAssoc
deriving DecidableEq, Repr

/-- Sub-sections of the debug-name custom section. -/
inductive NameSubSection where
  | mod (b : Blob String)
  | func (b : Blob NameMap)
  | loc (b : Blob Nat)
deriving DecidableEq, Repr

/-- Custom section: either the debug-name section or an opaque one. -/
inductive CustomSection where
  | name (b : Blob (List NameSubSection))
  | other (nm : String) (bytes : List Nat)
deriving DecidableEq, Repr

/-- A module section; payloads the engine never decodes are opaque Nat blobs. -/
inductive Section where
  | custom (b : Blob CustomSection)
  | typeSec (b : Blob (List FuncType))
  | importSec (b : Blob (List Import))
  | function (b : Blob (List TypeId))
  | table (b : Blob Nat)
  | memory (b : Blob Nat)
  | global (b : Blob Nat)
  | exportSec (b : Blob (List Export))
  | start (b : Blob FuncId)
  | element (b : Blob Nat)
  | code (b : Blob (List (Blob FuncBody)))
  | data (b : Blob Nat)
  | dataCount (b : Blob Nat)
deriving DecidableEq, Repr

/-- A wasm module: its ordered list of sections. -/
structure Module where
  sections : List Section
deriving DecidableEq, Repr

/-- First export section, as find_std_section locates it. -/
def findStdExportL : List Section → Option (Blob (List Export))
  | [] => none
  | Section.exportSec b :: _ => some b
  | _ :: rest => findStdExportL rest

/-- First type section. -/
def findStdTypeL : List Section → Option (Blob (List FuncType))
  | [] => none
  | Section.typeSec b :: _ => some b
  | _ :: rest => findStdTypeL rest

/-- First import section. -/
def findStdImportL : List Section → Option (Blob (List Import))
  | [] => none
  | Section.importSec b :: _ => some b
  | _ :: rest => findStdImportL rest

/-- First function section. -/
def findStdFunctionL : List Section → Option (Blob (List TypeId))
  | [] => none
  | Section.function b :: _ => some b
  | _ :: rest => findStdFunctionL rest

/-- First code section. -/
def findStdCodeL : List Section → Option (Blob (List (Blob FuncBody)))
  | [] => none
  | Section.code b :: _ => some b
  | _ :: rest => findStdCodeL rest

/-- Loop body of find_from_exports: first entry matched by the
(name, descriptor) patterns, true for malloc, false for dlmalloc. -/
def findExportEntry : List Export → Option (FuncId × Bool)
  | [] => none
  | e :: rest =>
      if e.name = "malloc" then
        match e.desc with
        | ExportDesc.func func_id => some (func_id, true)
        | _ => findExportEntry rest
      else if e.name = "dlmalloc" then
        match e.desc with
        | ExportDesc.func func_id => some (func_id, false)
        | _ => findExportEntry rest
      else findExportEntry rest

/-- Strategy 1 of src/main.rs: scan the export section. -/
def find_from_exports (m : Module) : Except DecodeError (Option (FuncId × Bool)) :=
  match findStdExportL m.sections with
  | some blob_exports =>
      match blob_exports.try_contents with
      | .error e => .error e
      | .ok exports => .ok (findExportEntry exports)
  | none => .ok none

/-- The custom-section payload of a section, when it is a custom section. -/
def getCustomBlob : Section → Option (Blob CustomSection)
  | Section.custom b => some b
  | _ => none

/-- The export-section payload of a section, when it is an export section. -/
def getExportBlob : Section → Option (Blob (List Export))
  | Section.exportSec b => some b
  | _ => none

/-- Inner loop of find_from_name_section over a function-name map. -/
def scanNameAssocs : List NameAssoc → Option FuncId
  | [] => none
  | a :: rest =>
      if a.value = "malloc" ∨ a.value = "dlmalloc" then some a.index
      else scanNameAssocs rest

/-- Loop of find_from_name_section over the sub-sections of one name section. -/
def scanSubSections : List NameSubSection → Except DecodeError (Option FuncId)
  | [] => .ok none
  | sub :: rest =>
      match sub with
      | NameSubSection.func fb =>
          match fb.try_contents with
          | .error e => .error e
          | .ok f =>
              match scanNameAssocs f.items with
              | some i => .ok (some i)
              | none => scanSubSections rest
      | _ => scanSubSections rest

/-- Outer loop of find_from_name_section over all sections of the module. -/
def findNameL : List Section → Except DecodeError (Option FuncId)
  | [] => .ok none
  | s :: rest =>
      match getCustomBlob s with
      | none => findNameL rest
      | some cb =>
          match cb.try_contents with
          | .error e => .error e
          | .ok (CustomSection.name nb) =>
              match nb.try_contents with
              | .error e => .error e
              | .ok subs =>
                  match scanSubSections subs with
                  | .error e => .error e
                  | .ok (some i) => .ok (some i)
                  | .ok none => findNameL rest
          | .ok (CustomSection.other _ _) => findNameL rest

/-- Strategy 2 of src/main.rs: scan the debug-name custom sections. -/
def find_from_name_section (m : Module) : Except DecodeError (Option FuncId) :=
  findNameL m.sections

/-- Fold of find_by_wasi over the import section: counts function-typed imports
and records the function index assigned to the anchor import. -/
def importFold (module_name func_name : String) :
    List Import → Nat → Option FuncId → Nat × Option FuncId
  | [], t, tgt => (t, tgt)
  | i :: rest, t, tgt =>
      let tgt' := if i.path.module = module_name ∧ i.path.name = func_name
        then some ⟨t⟩ else tgt
      let t' := match i.desc with
        | ImportDesc.func _ => t + 1
        | _ => t
      importFold module_name func_name rest t' tgt'

/-- Import-section part of find_by_wasi: import_func_size and anchor index. -/
def importData (m : Module) (module_name func_name : String) :
    Except DecodeError (Nat × Option FuncId) :=
  match findStdImportL m.sections with
  | some b =>
      match b.try_contents with
      | .error e => .error e
      | .ok imports => .ok (importFold module_name func_name imports 0 none)
  | none => .ok (0, none)

/-- Type section contents as find_by_wasi reads them, empty when absent. -/
def typesOf (m : Module) : Except DecodeError (List FuncType) :=
  match findStdTypeL m.sections with
  | some b => b.try_contents
  | none => .ok []

/-- Function section contents as find_by_wasi reads them, empty when absent. -/
def funcsOf (m : Module) : Except DecodeError (List TypeId) :=
  match findStdFunctionL m.sections with
  | some b => b.try_contents
  | none => .ok []

/-- Code section contents as find_by_wasi reads them, empty when absent. -/
def bodiesOf (m : Module) : Except DecodeError (List (Blob FuncBody)) :=
  match findStdCodeL m.sections with
  | some b => b.try_contents
  | none => .ok []

/-- Result of scanning one body: candidate accepted, whole search aborted, or
end of the body reached with the given anchor-seen flag. -/
inductive ScanOut where
  | found (f : FuncId)
  | veto
  | cont (flag : Bool)
deriving DecidableEq, Repr

/-- Candidate test of find_by_wasi: the branch taken on the first call seen
after the anchor call (host index veto, type resolution, shape test). -/
def candidateCheck (import_func_size : Nat) (funcs : List TypeId)
    (types : List FuncType) (func_id : FuncId) : ScanOut :=
  if func_id.index < import_func_size then .veto
  else
    match (funcs.get? (func_id.index - import_func_size)).bind
        (fun type_index => types.get? type_index.index) with
    | some func_type =>
        if func_type.params = [ValueType.i32] ∧
            func_type.results = [ValueType.i32]
        then .found func_id
        else .veto
    | none => .veto

/-- Instruction loop of find_by_wasi over one body, with the find flag. -/
def scanExpr (import_func_size : Nat) (anchor : FuncId) (funcs : List TypeId)
    (types : List FuncType) : List Instruction → Bool → ScanOut
  | [], flag => .cont flag
  | Instruction.call func_id :: _, true =>
      candidateCheck import_func_size funcs types func_id
  | Instruction.call func_id :: rest, false =>
      scanExpr import_func_size anchor funcs types rest
        (func_id.index == anchor.index)
  | Instruction.other _ :: rest, flag =>
      scanExpr import_func_size anchor funcs types rest flag

/-- Body loop of find_by_wasi: found stops with the candidate, veto stops the
whole search with none, otherwise the next body starts with a clear flag. -/
def scanBodies (import_func_size : Nat) (anchor : FuncId) (funcs : List TypeId)
    (types : List FuncType) : List (Blob FuncBody) → Except DecodeError (Option FuncId)
  | [] => .ok none
  | bb :: rest =>
      match bb.try_contents with
      | .error e => .error e
      | .ok body =>
          match scanExpr import_func_size anchor funcs types body.expr false with
          | .found f => .ok (some f)
          | .veto => .ok none
          | .cont _ => scanBodies import_func_size anchor funcs types rest

/-- Strategies 3 and 4 of src/main.rs: the call-pattern heuristic anchored at a
host import. -/
def find_by_wasi (m : Module) (module_name func_name : String) :
    Except DecodeError (Option FuncId) :=
  match importData m module_name func_name with
  | .error e => .error e
  | .ok (import_func_size, target) =>
      match target with
      | none => .ok none
      | some target_wasi_fn_index =>
          match typesOf m with
          | .error e => .error e
          | .ok types =>
              match funcsOf m with
              | .error e => .error e
              | .ok funcs =>
                  match bodiesOf m with
                  | .error e => .error e
                  | .ok bodies =>
                      scanBodies import_func_size target_wasi_fn_index
                        funcs types bodies

/-- Canonical numbering of section kinds used by the codec's ordered insert. -/
def sectionOrder : Section → Nat
  | Section.custom _ => 0
  | Section.typeSec _ => 1
  | Section.importSec _ => 2
  | Section.function _ => 3
  | Section.table _ => 4
  | Section.memory _ => 5
  | Section.global _ => 6
  | Section.exportSec _ => 7
  | Section.start _ => 8
  | Section.element _ => 9
  | Section.code _ => 10
  | Section.data _ => 11
  | Section.dataCount _ => 12

/-- Modelled from the spec: the codec's find_or_insert_std_section combined with
the entry push of export_malloc.  The codec library's source is not part of this
repository; per the spec the export section, when absent, is created at the
position mandated by the standard section ordering (after any standard section
that precedes Export in the canonical order, before the first one that follows
it), and an existing export section has the entry appended to its list. -/
def insertMallocEntry (e : Export) : List Section → Except DecodeError (List Section)
  | [] => .ok [Section.exportSec (Blob.val [e])]
  | s :: rest =>
      match getExportBlob s with
      | some b =>
          match b.try_contents with
          | .error err => .error err
          | .ok l => .ok (Section.exportSec (Blob.val (l ++ [e])) :: rest)
      | none =>
          if sectionOrder s > 7 then
            .ok (Section.exportSec (Blob.val [e]) :: s :: rest)
          else
            match insertMallocEntry e rest with
            | .error err => .error err
            | .ok rest' => .ok (s :: rest')

/-- Mutation performed by export_malloc when a candidate index was found. -/
def pushMalloc (m : Module) (f : FuncId) : Except DecodeError Module :=
  match insertMallocEntry ⟨"malloc", ExportDesc.func f⟩ m.sections with
  | .error e => .error e
  | .ok ss => .ok ⟨ss⟩

/-- The export_malloc entry point of src/main.rs: run the strategy chain and
append the export entry when a candidate was found. -/
def export_malloc (m : Module) : Except DecodeError Module :=
  match find_from_exports m with
  | .error e => .error e
  | .ok (some (_, true)) => .ok m
  | .ok (some (func_id, false)) => pushMalloc m func_id
  | .ok none =>
      match find_from_name_section m with
      | .error e => .error e
      | .ok (some func_id) => pushMalloc m func_id
      | .ok none =>
          match find_by_wasi m "wasi_snapshot_preview1" "environ_sizes_get" with
          | .error e => .error e
          | .ok (some func_id) => pushMalloc m func_id
          | .ok none =>
              match find_by_wasi m "wasi_snapshot_preview1" "args_sizes_get" with
              | .error e => .error e
              | .ok (some func_id) => pushMalloc m func_id
              | .ok none => .ok m

/-- True exactly on export sections. -/
def isExportSec : Section → Bool
  | Section.exportSec _ => true
  | _ => false

/-- True exactly on custom sections. -/
def isCustomSec : Section → Bool
  | Section.custom _ => true
  | _ => false

/-- True exactly on export entries the export scan stops at: a function
descriptor named malloc or dlmalloc. -/
def isAllocEntry (e : Export) : Bool :=
  match e.desc with
  | ExportDesc.func _ => e.name == "malloc" || e.name == "dlmalloc"
  | _ => false

/-- True exactly on call instructions. -/
def isCallInstr : Instruction → Bool
  | Instruction.call _ => true
  | _ => false

/-- All sections other than export sections, in order. -/
def nonExportSections (ss : List Section) : List Section :=
  ss.filter (fun s => !isExportSec s)

/-- Entries of the first export section when it is decoded, else empty. -/
def exportEntriesVal (ss : List Section) : List Export :=
  match findStdExportL ss with
  | some (Blob.val l) => l
  | _ => []

/-- Kind numbers of the standard (non-custom) sections, in order. -/
def stdKindsOf (ss : List Section) : List Nat :=
  (ss.filter (fun s => !isCustomSec s)).map sectionOrder

/-- Strictly increasing above a lower bound. -/
def sortedFrom : Nat → List Nat → Bool
  | _, [] => true
  | b, a :: rest => decide (b < a) && sortedFrom a rest

/-- Canonical relative ordering of the standard sections: their kind numbers
strictly increase (custom sections may sit anywhere). -/
def stdOrdered (ss : List Section) : Bool := sortedFrom 0 (stdKindsOf ss)

/-- Entries of one function-name map list that decode, flattened in order. -/
def subEntries : List NameSubSection → List NameAssoc
  | [] => []
  | sub :: rest =>
      match sub with
      | NameSubSection.func (Blob.val nm) => nm.items ++ subEntries rest
      | _ => subEntries rest

/-- All function-name entries of the decoded debug-name sections, flattened in
their stored order across sections and sub-sections. -/
def allFuncNameEntries : List Section → List NameAssoc
  | [] => []
  | s :: rest =>
      match getCustomBlob s with
      | some (Blob.val (CustomSection.name (Blob.val subs))) =>
          subEntries subs ++ allFuncNameEntries rest
      | _ => allFuncNameEntries rest

/-- Modelled from the spec: the first entry, in stored order across the
function-name sub-sections of the debug-name custom sections, whose name is
exactly malloc or dlmalloc. -/
def specFirstAllocNameEntry (m : Module) : Option FuncId :=
  ((allFuncNameEntries m.sections).find?
    (fun a => a.value == "malloc" || a.value == "dlmalloc")).map NameAssoc.index

/-- All blobs of one debug-name custom section decode. -/
def customBlobsOk (b : Blob CustomSection) : Bool :=
  match b with
  | Blob.err _ => false
  | Blob.val (CustomSection.other _ _) => true
  | Blob.val (CustomSection.name nb) =>
      match nb with
      | Blob.err _ => false
      | Blob.val subs =>
          subs.all (fun sub => match sub with
            | NameSubSection.func fb => fb.isVal
            | _ => true)

/-- Per-section decodability for the name scan: when this is a custom section,
its payload, the name-section list and every function-name map decode. -/
def sectionNameOk (s : Section) : Bool :=
  match getCustomBlob s with
  | some b => customBlobsOk b
  | none => true

/-- All custom sections of the module decode for the name scan. -/
def nameSectionsOk (ss : List Section) : Bool := ss.all sectionNameOk

/-- Every payload the engine may decode in this section decodes successfully. -/
def sectionBlobsOk : Section → Bool
  | Section.custom b => customBlobsOk b
  | Section.typeSec b => b.isVal
  | Section.importSec b => b.isVal
  | Section.function b => b.isVal
  | Section.exportSec b => b.isVal
  | Section.code b =>
      match b with
      | Blob.err _ => false
      | Blob.val bodies => bodies.all Blob.isVal
  | _ => true

/-- Every payload the engine may decode in the module decodes successfully. -/
def allBlobsOk (ss : List Section) : Bool := ss.all sectionBlobsOk

/-- Outcome of the detection engine as the spec describes it. -/
inductive Outcome where
  | satisfied
  | found (f : FuncId)
  | notFound
deriving DecidableEq, Repr

/-- The detection engine of export_malloc, separated from the mutation: the
same strategy chain, reported as an outcome. -/
def detect (m : Module) : Except DecodeError Outcome :=
  match find_from_exports m with
  | .error e => .error e
  | .ok (some (_, true)) => .ok .satisfied
  | .ok (some (func_id, false)) => .ok (.found func_id)
  | .ok none =>
      match find_from_name_section m with
      | .error e => .error e
      | .ok (some func_id) => .ok (.found func_id)
      | .ok none =>
          match find_by_wasi m "wasi_snapshot_preview1" "environ_sizes_get" with
          | .error e => .error e
          | .ok (some func_id) => .ok (.found func_id)
          | .ok none =>
              match find_by_wasi m "wasi_snapshot_preview1" "args_sizes_get" with
              | .error e => .error e
              | .ok (some func_id) => .ok (.found func_id)
              | .ok none => .ok .notFound

/-! Concrete modules used to settle individual claims. -/

/-- A module exporting only dlmalloc. -/
def exC1 : Module :=
  ⟨[Section.exportSec (Blob.val [⟨"dlmalloc", ExportDesc.func ⟨0⟩⟩])]⟩

/-- The first run's output on exC1. -/
def exC1run1 : Module :=
  ⟨[Section.exportSec (Blob.val
    [⟨"dlmalloc", ExportDesc.func ⟨0⟩⟩,
     ⟨"malloc", ExportDesc.func ⟨0⟩⟩])]⟩

/-- The second run's output on exC1: a further malloc entry is appended. -/
def exC1run2 : Module :=
  ⟨[Section.exportSec (Blob.val
    [⟨"dlmalloc", ExportDesc.func ⟨0⟩⟩,
     ⟨"malloc", ExportDesc.func ⟨0⟩⟩,
     ⟨"malloc", ExportDesc.func ⟨0⟩⟩])]⟩

/-- A module whose debug-name section names function 7 malloc. -/
def exC1w : Module :=
  ⟨[Section.custom (Blob.val (CustomSection.name (Blob.val
    [NameSubSection.func (Blob.val ⟨[⟨⟨7⟩, "malloc"⟩]⟩)])))]⟩

/-- The run's output on exC1w. -/
def exC1wOut : Module :=
  ⟨[Section.custom (Blob.val (CustomSection.name (Blob.val
    [NameSubSection.func (Blob.val ⟨[⟨⟨7⟩, "malloc"⟩]⟩)]))),
    Section.exportSec (Blob.val [⟨"malloc", ExportDesc.func ⟨7⟩⟩])]⟩

/-- A module with a dlmalloc entry before a malloc entry in the export list. -/
def exC2 : Module :=
  ⟨[Section.exportSec (Blob.val
    [⟨"dlmalloc", ExportDesc.func ⟨0⟩⟩,
     ⟨"malloc", ExportDesc.func ⟨1⟩⟩])]⟩

/-- A module whose export list reaches malloc first, together with sections on
which strategy 3 would also match. -/
def exC2w : Module :=
  ⟨[Section.typeSec (Blob.val [⟨[ValueType.i32], [ValueType.i32]⟩]),
    Section.importSec (Blob.val
      [⟨⟨"wasi_snapshot_preview1", "environ_sizes_get"⟩, ImportDesc.func ⟨0⟩⟩]),
    Section.function (Blob.val [⟨0⟩]),
    Section.exportSec (Blob.val
      [⟨"memory", ExportDesc.mem 0⟩,
       ⟨"malloc", ExportDesc.func ⟨3⟩⟩,
       ⟨"dlmalloc", ExportDesc.func ⟨2⟩⟩]),
    Section.code (Blob.val
      [Blob.val ⟨[], [Instruction.call ⟨0⟩, Instruction.call ⟨1⟩]⟩])]⟩

/-- A module whose first post-anchor call targets a function of the wrong
shape, while a later body contains a call that would have matched. -/
def exC3 : Module :=
  ⟨[Section.typeSec (Blob.val
      [⟨[ValueType.i32, ValueType.i32], [ValueType.i32]⟩,
       ⟨[ValueType.i32], [ValueType.i32]⟩]),
    Section.importSec (Blob.val
      [⟨⟨"wasi_snapshot_preview1", "environ_sizes_get"⟩, ImportDesc.func ⟨0⟩⟩]),
    Section.function (Blob.val [⟨0⟩, ⟨1⟩]),
    Section.code (Blob.val
      [Blob.val ⟨[], [Instruction.call ⟨0⟩, Instruction.call ⟨1⟩]⟩,
       Blob.val ⟨[], [Instruction.call ⟨0⟩, Instruction.call ⟨2⟩]⟩])]⟩

/-- A module on which no strategy matches. -/
def exC4 : Module :=
  ⟨[Section.typeSec (Blob.val [⟨[], []⟩]),
    Section.importSec (Blob.val
      [⟨⟨"env", "putchar"⟩, ImportDesc.func ⟨0⟩⟩]),
    Section.exportSec (Blob.val [⟨"memory", ExportDesc.mem 0⟩]),
    Section.custom (Blob.val (CustomSection.other "producers" [3, 1, 4]))]⟩

/-- A module with two dlmalloc export entries mapping different functions. -/
def exC5 : Module :=
  ⟨[Section.exportSec (Blob.val
    [⟨"dlmalloc", ExportDesc.func ⟨0⟩⟩,
     ⟨"dlmalloc", ExportDesc.func ⟨1⟩⟩])]⟩

/-- The run's output on exC5: the first entry's index is the one exported. -/
def exC5out : Module :=
  ⟨[Section.exportSec (Blob.val
    [⟨"dlmalloc", ExportDesc.func ⟨0⟩⟩,
     ⟨"dlmalloc", ExportDesc.func ⟨1⟩⟩,
     ⟨"malloc", ExportDesc.func ⟨0⟩⟩])]⟩

/-- A module exporting dlmalloc as function 5, behind an unrelated entry. -/
def exC5w : Module :=
  ⟨[Section.exportSec (Blob.val
    [⟨"memory", ExportDesc.mem 0⟩,
     ⟨"dlmalloc", ExportDesc.func ⟨5⟩⟩])]⟩

/-- Scenario 4 of the spec: three function imports, the anchor at index 1, and
a body calling the anchor then function 4 of type i32 to i32. -/
def exC6 : Module :=
  ⟨[Section.typeSec (Blob.val [⟨[ValueType.i32], [ValueType.i32]⟩, ⟨[], []⟩]),
    Section.importSec (Blob.val
      [⟨⟨"wasi_snapshot_preview1", "fd_write"⟩, ImportDesc.func ⟨0⟩⟩,
       ⟨⟨"wasi_snapshot_preview1", "environ_sizes_get"⟩, ImportDesc.func ⟨1⟩⟩,
       ⟨⟨"wasi_snapshot_preview1", "proc_exit"⟩, ImportDesc.func ⟨1⟩⟩]),
    Section.function (Blob.val [⟨1⟩, ⟨0⟩]),
    Section.code (Blob.val
      [Blob.val ⟨[], [Instruction.call ⟨1⟩, Instruction.call ⟨4⟩]⟩,
       Blob.val ⟨[], []⟩])]⟩

/-- A module with one opaque custom section and one debug-name section whose
function-name maps name function 7 malloc after an unrelated entry. -/
def exC7 : Module :=
  ⟨[Section.custom (Blob.val (CustomSection.other "producers" [1, 2])),
    Section.custom (Blob.val (CustomSection.name (Blob.val
      [NameSubSection.mod (Blob.val "app"),
       NameSubSection.func (Blob.val ⟨[⟨⟨3⟩, "memcpy"⟩, ⟨⟨7⟩, "malloc"⟩]⟩),
       NameSubSection.func (Blob.val ⟨[⟨⟨9⟩, "dlmalloc"⟩]⟩)])))]⟩

/-- A module touching every section kind the engine reads, fully decodable. -/
def exC8 : Module :=
  ⟨[Section.typeSec (Blob.val [⟨[ValueType.i32], [ValueType.i32]⟩]),
    Section.importSec (Blob.val
      [⟨⟨"wasi_snapshot_preview1", "args_sizes_get"⟩, ImportDesc.func ⟨0⟩⟩]),
    Section.function (Blob.val [⟨0⟩]),
    Section.exportSec (Blob.val [⟨"memory", ExportDesc.mem 0⟩]),
    Section.code (Blob.val [Blob.val ⟨[], [Instruction.other 65]⟩]),
    Section.custom (Blob.val (CustomSection.name (Blob.val
      [NameSubSection.func (Blob.val ⟨[⟨⟨1⟩, "start"⟩]⟩)])))]⟩

/-- A canonically ordered module whose export scan finds dlmalloc. -/
def exC9 : Module :=
  ⟨[Section.typeSec (Blob.val [⟨[ValueType.i32], [ValueType.i32]⟩]),
    Section.exportSec (Blob.val [⟨"dlmalloc", ExportDesc.func ⟨2⟩⟩]),
    Section.code (Blob.val [])]⟩

/-- A module whose first post-anchor call targets a local function whose type
cannot be resolved: the function section is empty. -/
def exC10 : Module :=
  ⟨[Section.importSec (Blob.val
      [⟨⟨"wasi_snapshot_preview1", "environ_sizes_get"⟩, ImportDesc.func ⟨0⟩⟩]),
    Section.code (Blob.val
      [Blob.val ⟨[], [Instruction.call ⟨0⟩, Instruction.call ⟨1⟩]⟩])]⟩

/-! Helper lemmas about the section walkers. -/

theorem isExportSec_of_order (s : Section) (h : sectionOrder s = 7) :
    isExportSec s = true := by
  cases s <;> first | rfl | simp [sectionOrder] at h

theorem getExportBlob_of_isExportSec (s : Section) (h : isExportSec s = true) :
    ∃ b, s = Section.exportSec b := by
  cases s <;> first | exact ⟨_, rfl⟩ | simp [isExportSec] at h

theorem getExportBlob_eq_none (s : Section) (h : isExportSec s = false) :
    getExportBlob s = none := by
  cases s <;> first | rfl | simp [isExportSec] at h

theorem getCustomBlob_eq_none (s : Section) (h : isCustomSec s = false) :
    getCustomBlob s = none := by
  cases s <;> first | rfl | simp [isCustomSec] at h

theorem isExportSec_false_of_low (s : Section) (h : sectionOrder s < 7) :
    isExportSec s = false := by
  cases s <;> first | rfl | simp [sectionOrder] at h

theorem isCustomSec_false_of_export (s : Section) (h : isExportSec s = true) :
    isCustomSec s = false := by
  cases s <;> first | rfl | simp [isExportSec] at h

theorem findStdExportL_cons (s : Section) (rest : List Section)
    (h : isExportSec s = false) :
    findStdExportL (s :: rest) = findStdExportL rest := by
  cases s <;> first | rfl | simp [isExportSec] at h

theorem find_from_exports_cons (s : Section) (rest : List Section)
    (h : isExportSec s = false) :
    find_from_exports ⟨s :: rest⟩ = find_from_exports ⟨rest⟩ := by
  simp only [find_from_exports]
  rw [findStdExportL_cons s rest h]

theorem insertMallocEntry_cons_export (e : Export) (b : Blob (List Export))
    (rest : List Section) :
    insertMallocEntry e (Section.exportSec b :: rest) =
      match b.try_contents with
      | .error err => .error err
      | .ok l => .ok (Section.exportSec (Blob.val (l ++ [e])) :: rest) := by
  cases b <;> rfl

theorem insertMallocEntry_cons_low (e : Export) (s : Section)
    (rest : List Section) (h : sectionOrder s < 7) :
    insertMallocEntry e (s :: rest) =
      match insertMallocEntry e rest with
      | .error err => .error err
      | .ok rest' => .ok (s :: rest') := by
  have hx : getExportBlob s = none :=
    getExportBlob_eq_none s (isExportSec_false_of_low s h)
  simp only [insertMallocEntry, hx]
  rw [if_neg (by omega)]

theorem insertMallocEntry_cons_high (e : Export) (s : Section)
    (rest : List Section) (h : sectionOrder s > 7) :
    insertMallocEntry e (s :: rest) =
      .ok (Section.exportSec (Blob.val [e]) :: s :: rest) := by
  have hs : isExportSec s = false := by
    cases hx : isExportSec s
    · rfl
    · obtain ⟨b, rfl⟩ := getExportBlob_of_isExportSec s hx
      simp [sectionOrder] at h
  simp only [insertMallocEntry, getExportBlob_eq_none s hs]
  rw [if_pos h]

/-! Helper lemmas about the export-entry scan. -/

theorem findExportEntry_cons_skip (e : Export) (rest : List Export)
    (h : isAllocEntry e = false) :
    findExportEntry (e :: rest) = findExportEntry rest := by
  obtain ⟨nm, desc⟩ := e
  by_cases h1 : nm = "malloc"
  · subst h1
    cases desc with
    | func f => simp [isAllocEntry] at h
    | table n => simp [findExportEntry]
    | mem n => simp [findExportEntry]
    | global n => simp [findExportEntry]
  · by_cases h2 : nm = "dlmalloc"
    · subst h2
      cases desc with
      | func f => simp [isAllocEntry] at h
      | table n => simp [findExportEntry]
      | mem n => simp [findExportEntry]
      | global n => simp [findExportEntry]
    · simp [findExportEntry, h1, h2]

theorem findExportEntry_append_skip (l1 l2 : List Export)
    (h : ∀ e ∈ l1, isAllocEntry e = false) :
    findExportEntry (l1 ++ l2) = findExportEntry l2 := by
  induction l1 with
  | nil => rfl
  | cons e rest ih =>
      rw [List.cons_append,
        findExportEntry_cons_skip e _ (h e (List.mem_cons_self e rest)),
        ih (fun x hx => h x (List.mem_cons_of_mem _ hx))]

theorem findExportEntry_eq_none_iff (l : List Export) :
    findExportEntry l = none ↔ ∀ e ∈ l, isAllocEntry e = false := by
  induction l with
  | nil => simp [findExportEntry]
  | cons e rest ih =>
      obtain ⟨nm, desc⟩ := e
      by_cases h1 : nm = "malloc"
      · subst h1
        cases desc <;> simp [findExportEntry, isAllocEntry, ih]
      · by_cases h2 : nm = "dlmalloc"
        · subst h2
          cases desc <;> simp [findExportEntry, isAllocEntry, ih]
        · cases desc <;> simp [findExportEntry, isAllocEntry, h1, h2, ih, beq_iff_eq]

theorem findExportEntry_malloc (i : FuncId) (rest : List Export) :
    findExportEntry (⟨"malloc", ExportDesc.func i⟩ :: rest) = some (i, true) := by
  simp [findExportEntry]

theorem findExportEntry_dlmalloc (i : FuncId) (rest : List Export) :
    findExportEntry (⟨"dlmalloc", ExportDesc.func i⟩ :: rest) =
      some (i, false) := by
  simp [findExportEntry]

/-! Helper lemmas about the call-pattern scan. -/

theorem candidateCheck_not_cont (ifs : Nat) (funcs : List TypeId)
    (types : List FuncType) (f : FuncId) (flag : Bool) :
    candidateCheck ifs funcs types f ≠ ScanOut.cont flag := by
  unfold candidateCheck
  split
  · simp
  · split
    · split <;> simp
    · simp

theorem scanExpr_append (ifs : Nat) (a : FuncId) (funcs : List TypeId)
    (types : List FuncType) (xs ys : List Instruction) (flag : Bool) :
    scanExpr ifs a funcs types (xs ++ ys) flag =
      match scanExpr ifs a funcs types xs flag with
      | ScanOut.cont flag' => scanExpr ifs a funcs types ys flag'
      | out => out := by
  induction xs generalizing flag with
  | nil => rfl
  | cons i rest ih =>
      cases i with
      | call f =>
          cases flag with
          | true =>
              show candidateCheck ifs funcs types f =
                match candidateCheck ifs funcs types f with
                | ScanOut.cont flag' => scanExpr ifs a funcs types ys flag'
                | out => out
              cases hc : candidateCheck ifs funcs types f with
              | found g => rfl
              | veto => rfl
              | cont b =>
                  exact absurd hc (candidateCheck_not_cont ifs funcs types f b)
          | false => exact ih (f.index == a.index)
      | other n => exact ih flag

theorem scanExpr_nocall (ifs : Nat) (a : FuncId) (funcs : List TypeId)
    (types : List FuncType) (q : List Instruction) (flag : Bool)
    (h : ∀ i ∈ q, isCallInstr i = false) :
    scanExpr ifs a funcs types q flag = ScanOut.cont flag := by
  induction q with
  | nil => rfl
  | cons i rest ih =>
      cases i with
      | call f =>
          have hc := h (Instruction.call f) (List.mem_cons_self _ _)
          simp [isCallInstr] at hc
      | other n => exact ih (fun x hx => h x (List.mem_cons_of_mem _ hx))

theorem scanExpr_first_post_anchor (ifs : Nat) (a : FuncId) (funcs : List TypeId)
    (types : List FuncType) (p q r : List Instruction) (c : FuncId)
    (hp : scanExpr ifs a funcs types p false = ScanOut.cont false)
    (hq : ∀ i ∈ q, isCallInstr i = false) :
    scanExpr ifs a funcs types
        (p ++ Instruction.call a :: (q ++ Instruction.call c :: r)) false =
      candidateCheck ifs funcs types c := by
  rw [scanExpr_append, hp]
  show scanExpr ifs a funcs types (q ++ Instruction.call c :: r)
      (a.index == a.index) = _
  rw [show (a.index == a.index) = true from by simp]
  rw [scanExpr_append, scanExpr_nocall ifs a funcs types q true hq]
  rfl

theorem scanBodies_append_cont (ifs : Nat) (a : FuncId) (funcs : List TypeId)
    (types : List FuncType) (bs1 bs2 : List (Blob FuncBody))
    (h : ∀ bb ∈ bs1, ∃ body, bb.try_contents = Except.ok body ∧
      ∃ flag, scanExpr ifs a funcs types body.expr false = ScanOut.cont flag) :
    scanBodies ifs a funcs types (bs1 ++ bs2) =
      scanBodies ifs a funcs types bs2 := by
  induction bs1 with
  | nil => rfl
  | cons bb rest ih =>
      obtain ⟨body, hb, flag, hs⟩ := h bb (List.mem_cons_self _ _)
      rw [List.cons_append]
      simp only [scanBodies, hb, hs]
      exact ih (fun x hx => h x (List.mem_cons_of_mem _ hx))

theorem candidateCheck_veto_of_host (ifs : Nat) (funcs : List TypeId)
    (types : List FuncType) (c : FuncId) (h : c.index < ifs) :
    candidateCheck ifs funcs types c = ScanOut.veto := by
  unfold candidateCheck
  rw [if_pos h]

theorem candidateCheck_veto_of_shape (ifs : Nat) (funcs : List TypeId)
    (types : List FuncType) (c : FuncId)
    (h : (funcs.get? (c.index - ifs)).bind
        (fun type_index => types.get? type_index.index) ≠
      some ⟨[ValueType.i32], [ValueType.i32]⟩) :
    candidateCheck ifs funcs types c = ScanOut.veto := by
  unfold candidateCheck
  split
  · rfl
  · cases hres : (funcs.get? (c.index - ifs)).bind
        (fun type_index => types.get? type_index.index) with
    | none => rfl
    | some ft =>
        obtain ⟨ps, rs⟩ := ft
        rw [hres] at h
        have hne : ¬(ps = [ValueType.i32] ∧ rs = [ValueType.i32]) := by
          intro hand
          rw [hand.1, hand.2] at h
          exact h rfl
        show (if ps = [ValueType.i32] ∧ rs = [ValueType.i32]
          then ScanOut.found c else ScanOut.veto) = ScanOut.veto
        rw [if_neg hne]

theorem candidateCheck_found_of (ifs : Nat) (funcs : List TypeId)
    (types : List FuncType) (c : FuncId) (h1 : ¬ c.index < ifs)
    (h2 : (funcs.get? (c.index - ifs)).bind
        (fun type_index => types.get? type_index.index) =
      some ⟨[ValueType.i32], [ValueType.i32]⟩) :
    candidateCheck ifs funcs types c = ScanOut.found c := by
  unfold candidateCheck
  rw [if_neg h1, h2]
  simp

theorem find_by_wasi_candidate (m : Module) (module_name func_name : String)
    (ifs : Nat) (a : FuncId) (types : List FuncType) (funcs : List TypeId)
    (bodies bs1 bs2 : List (Blob FuncBody)) (bb : Blob FuncBody)
    (body : FuncBody) (p q r : List Instruction) (c : FuncId)
    (himp : importData m module_name func_name = Except.ok (ifs, some a))
    (ht : typesOf m = Except.ok types)
    (hf : funcsOf m = Except.ok funcs)
    (hb : bodiesOf m = Except.ok bodies)
    (hsplit : bodies = bs1 ++ bb :: bs2)
    (hprev : ∀ x ∈ bs1, ∃ e, x.try_contents = Except.ok e ∧
      ∃ flag, scanExpr ifs a funcs types e.expr false = ScanOut.cont flag)
    (hbb : bb.try_contents = Except.ok body)
    (hexpr : body.expr = p ++ Instruction.call a :: (q ++ Instruction.call c :: r))
    (hp : scanExpr ifs a funcs types p false = ScanOut.cont false)
    (hq : ∀ i ∈ q, isCallInstr i = false) :
    find_by_wasi m module_name func_name =
      match candidateCheck ifs funcs types c with
      | ScanOut.found f => Except.ok (some f)
      | ScanOut.veto => Except.ok none
      | ScanOut.cont _ => scanBodies ifs a funcs types bs2 := by
  simp only [find_by_wasi, himp, ht, hf, hb]
  rw [hsplit, scanBodies_append_cont ifs a funcs types bs1 (bb :: bs2) hprev]
  simp only [scanBodies, hbb, hexpr,
    scanExpr_first_post_anchor ifs a funcs types p q r c hp hq]

theorem export_malloc_eq_detect (m : Module) :
    export_malloc m =
      match detect m with
      | .error e => .error e
      | .ok Outcome.satisfied => .ok m
      | .ok (Outcome.found f) => pushMalloc m f
      | .ok Outcome.notFound => .ok m := by
  unfold export_malloc detect
  cases find_from_exports m with
  | error e => rfl
  | ok v =>
      rcases v with _ | ⟨f, b⟩
      · cases find_from_name_section m with
        | error e => rfl
        | ok w =>
            rcases w with _ | f
            · cases find_by_wasi m "wasi_snapshot_preview1" "environ_sizes_get" with
              | error e => rfl
              | ok x =>
                  rcases x with _ | f
                  · cases find_by_wasi m "wasi_snapshot_preview1" "args_sizes_get" with
                    | error e => rfl
                    | ok y => rcases y with _ | f <;> rfl
                  · rfl
            · rfl
      · cases b <;> rfl

/-! The ten claims. -/

/-- C3: in the call-pattern heuristic, when the first call instruction
encountered after a call to the anchor targets an index below import_func_size
or a function whose resolved type is not exactly one i32 parameter and one i32
result, the heuristic yields nothing at all: no candidate from any later
instruction or body is considered and it adds no export. -/
theorem find_by_wasi_first_call_veto (m : Module) (module_name func_name : String)
    (ifs : Nat) (a : FuncId) (types : List FuncType) (funcs : List TypeId)
    (bodies bs1 bs2 : List (Blob FuncBody)) (bb : Blob FuncBody)
    (body : FuncBody) (p q r : List Instruction) (c : FuncId)
    (himp : importData m module_name func_name = Except.ok (ifs, some a))
    (ht : typesOf m = Except.ok types)
    (hf : funcsOf m = Except.ok funcs)
    (hb : bodiesOf m = Except.ok bodies)
    (hsplit : bodies = bs1 ++ bb :: bs2)
    (hprev : ∀ x ∈ bs1, ∃ e, x.try_contents = Except.ok e ∧
      ∃ flag, scanExpr ifs a funcs types e.expr false = ScanOut.cont flag)
    (hbb : bb.try_contents = Except.ok body)
    (hexpr : body.expr = p ++ Instruction.call a :: (q ++ Instruction.call c :: r))
    (hp : scanExpr ifs a funcs types p false = ScanOut.cont false)
    (hq : ∀ i ∈ q, isCallInstr i = false)
    (hbad : c.index < ifs ∨
      (funcs.get? (c.index - ifs)).bind
        (fun type_index => types.get? type_index.index) ≠
        some ⟨[ValueType.i32], [ValueType.i32]⟩) :
    find_by_wasi m module_name func_name = Except.ok none := by
  have hveto : candidateCheck ifs funcs types c = ScanOut.veto := by
    rcases hbad with hlt | hne
    · exact candidateCheck_veto_of_host ifs funcs types c hlt
    · exact candidateCheck_veto_of_shape ifs funcs types c hne
  rw [find_by_wasi_candidate m module_name func_name ifs a types funcs bodies
    bs1 bs2 bb body p q r c himp ht hf hb hsplit hprev hbb hexpr hp hq, hveto]

/-- C3 witness: on exC3 the first post-anchor call targets local function 0 of
type (i32, i32) to i32, so the heuristic yields nothing although the second
body ends with a call that would have matched. -/
theorem find_by_wasi_first_call_veto_witness :
    find_by_wasi exC3 "wasi_snapshot_preview1" "environ_sizes_get" =
      Except.ok none :=
  find_by_wasi_first_call_veto exC3 "wasi_snapshot_preview1" "environ_sizes_get"
    1 ⟨0⟩
    [⟨[ValueType.i32, ValueType.i32], [ValueType.i32]⟩,
     ⟨[ValueType.i32], [ValueType.i32]⟩]
    [⟨0⟩, ⟨1⟩]
    [Blob.val ⟨[], [Instruction.call ⟨0⟩, Instruction.call ⟨1⟩]⟩,
     Blob.val ⟨[], [Instruction.call ⟨0⟩, Instruction.call ⟨2⟩]⟩]
    [] [Blob.val ⟨[], [Instruction.call ⟨0⟩, Instruction.call ⟨2⟩]⟩]
    (Blob.val ⟨[], [Instruction.call ⟨0⟩, Instruction.call ⟨1⟩]⟩)
    ⟨[], [Instruction.call ⟨0⟩, Instruction.call ⟨1⟩]⟩
    [] [] [] ⟨1⟩
    (by decide) (by decide) (by decide) (by decide) (by decide)
    (fun x hx => absurd hx (List.not_mem_nil x)) (by decide) (by decide)
    (by decide) (fun i hi => absurd hi (List.not_mem_nil i))
    (Or.inr (by decide))

/-- C10: when the first post-anchor candidate is a non-host index whose
declared type cannot be resolved (local index out of range of the Function
section, or type index out of range of the Type section), the heuristic yields
Ok none: the lookups are total via optional indexing and no error arises. -/
theorem unresolvable_type_yields_none (m : Module) (module_name func_name : String)
    (ifs : Nat) (a : FuncId) (types : List FuncType) (funcs : List TypeId)
    (bodies bs1 bs2 : List (Blob FuncBody)) (bb : Blob FuncBody)
    (body : FuncBody) (p q r : List Instruction) (c : FuncId)
    (himp : importData m module_name func_name = Except.ok (ifs, some a))
    (ht : typesOf m = Except.ok types)
    (hf : funcsOf m = Except.ok funcs)
    (hb : bodiesOf m = Except.ok bodies)
    (hsplit : bodies = bs1 ++ bb :: bs2)
    (hprev : ∀ x ∈ bs1, ∃ e, x.try_contents = Except.ok e ∧
      ∃ flag, scanExpr ifs a funcs types e.expr false = ScanOut.cont flag)
    (hbb : bb.try_contents = Except.ok body)
    (hexpr : body.expr = p ++ Instruction.call a :: (q ++ Instruction.call c :: r))
    (hp : scanExpr ifs a funcs types p false = ScanOut.cont false)
    (hq : ∀ i ∈ q, isCallInstr i = false)
    (hge : ¬ c.index < ifs)
    (hun : funcs.get? (c.index - ifs) = none ∨
      ∃ ti, funcs.get? (c.index - ifs) = some ti ∧ types.get? ti.index = none) :
    find_by_wasi m module_name func_name = Except.ok none := by
  have hnone : (funcs.get? (c.index - ifs)).bind
      (fun type_index => types.get? type_index.index) = none := by
    rcases hun with h1 | ⟨ti, h1, h2⟩
    · rw [h1]; rfl
    · rw [h1]; simpa using h2
  have hveto : candidateCheck ifs funcs types c = ScanOut.veto :=
    candidateCheck_veto_of_shape ifs funcs types c (by rw [hnone]; simp)
  rw [find_by_wasi_candidate m module_name func_name ifs a types funcs bodies
    bs1 bs2 bb body p q r c himp ht hf hb hsplit hprev hbb hexpr hp hq, hveto]

/-- C10 witness: on exC10 the candidate is local function 0 but the function
section is absent, so the type lookup misses and the heuristic yields none. -/
theorem unresolvable_type_yields_none_witness :
    find_by_wasi exC10 "wasi_snapshot_preview1" "environ_sizes_get" =
      Except.ok none :=
  unresolvable_type_yields_none exC10 "wasi_snapshot_preview1" "environ_sizes_get"
    1 ⟨0⟩ [] []
    [Blob.val ⟨[], [Instruction.call ⟨0⟩, Instruction.call ⟨1⟩]⟩]
    [] []
    (Blob.val ⟨[], [Instruction.call ⟨0⟩, Instruction.call ⟨1⟩]⟩)
    ⟨[], [Instruction.call ⟨0⟩, Instruction.call ⟨1⟩]⟩
    [] [] [] ⟨1⟩
    (by decide) (by decide) (by decide) (by decide) (by decide)
    (fun x hx => absurd hx (List.not_mem_nil x)) (by decide) (by decide)
    (by decide) (fun i hi => absurd hi (List.not_mem_nil i))
    (by decide) (Or.inl (by decide))

/-- C6: when some body calls the anchor and the next call instruction targets a
non-host index whose declared type resolves to exactly i32 to i32, the
heuristic yields that candidate immediately, ignoring all remaining bodies;
with strategies 1 and 2 inconclusive the module gains the malloc export. -/
theorem find_by_wasi_match_found (m : Module)
    (ifs : Nat) (a : FuncId) (types : List FuncType) (funcs : List TypeId)
    (bodies bs1 bs2 : List (Blob FuncBody)) (bb : Blob FuncBody)
    (body : FuncBody) (p q r : List Instruction) (c : FuncId)
    (hex : find_from_exports m = Except.ok none)
    (hname : find_from_name_section m = Except.ok none)
    (himp : importData m "wasi_snapshot_preview1" "environ_sizes_get" =
      Except.ok (ifs, some a))
    (ht : typesOf m = Except.ok types)
    (hf : funcsOf m = Except.ok funcs)
    (hb : bodiesOf m = Except.ok bodies)
    (hsplit : bodies = bs1 ++ bb :: bs2)
    (hprev : ∀ x ∈ bs1, ∃ e, x.try_contents = Except.ok e ∧
      ∃ flag, scanExpr ifs a funcs types e.expr false = ScanOut.cont flag)
    (hbb : bb.try_contents = Except.ok body)
    (hexpr : body.expr = p ++ Instruction.call a :: (q ++ Instruction.call c :: r))
    (hp : scanExpr ifs a funcs types p false = ScanOut.cont false)
    (hq : ∀ i ∈ q, isCallInstr i = false)
    (hge : ¬ c.index < ifs)
    (hres : (funcs.get? (c.index - ifs)).bind
        (fun type_index => types.get? type_index.index) =
      some ⟨[ValueType.i32], [ValueType.i32]⟩) :
    find_by_wasi m "wasi_snapshot_preview1" "environ_sizes_get" =
        Except.ok (some c) ∧
      export_malloc m = pushMalloc m c := by
  have hfound : candidateCheck ifs funcs types c = ScanOut.found c :=
    candidateCheck_found_of ifs funcs types c hge hres
  have hw : find_by_wasi m "wasi_snapshot_preview1" "environ_sizes_get" =
      Except.ok (some c) := by
    rw [find_by_wasi_candidate m "wasi_snapshot_preview1" "environ_sizes_get"
      ifs a types funcs bodies bs1 bs2 bb body p q r c himp ht hf hb hsplit
      hprev hbb hexpr hp hq, hfound]
  refine ⟨hw, ?_⟩
  simp only [export_malloc, hex, hname, hw]

/-- C6 witness: scenario 4 of the spec on exC6, where the candidate is
function 4 and the module gains the export entry malloc for it. -/
theorem find_by_wasi_match_found_witness :
    (find_by_wasi exC6 "wasi_snapshot_preview1" "environ_sizes_get" =
        Except.ok (some ⟨4⟩) ∧
      export_malloc exC6 = pushMalloc exC6 ⟨4⟩) ∧
      pushMalloc exC6 ⟨4⟩ = Except.ok ⟨exC6.sections.take 3 ++
        (Section.exportSec (Blob.val [⟨"malloc", ExportDesc.func ⟨4⟩⟩]) ::
          exC6.sections.drop 3)⟩ :=
  ⟨find_by_wasi_match_found exC6 3 ⟨1⟩
    [⟨[ValueType.i32], [ValueType.i32]⟩, ⟨[], []⟩] [⟨1⟩, ⟨0⟩]
    [Blob.val ⟨[], [Instruction.call ⟨1⟩, Instruction.call ⟨4⟩]⟩,
     Blob.val ⟨[], []⟩]
    [] [Blob.val ⟨[], []⟩]
    (Blob.val ⟨[], [Instruction.call ⟨1⟩, Instruction.call ⟨4⟩]⟩)
    ⟨[], [Instruction.call ⟨1⟩, Instruction.call ⟨4⟩]⟩
    [] [] [] ⟨4⟩
    (by decide) (by decide) (by decide) (by decide) (by decide) (by decide)
    (by decide)
    (fun x hx => absurd hx (List.not_mem_nil x)) (by decide) (by decide)
    (by decide) (fun i hi => absurd hi (List.not_mem_nil i))
    (by decide) (by decide), by decide⟩

/-- C4: on every module where the detection engine concludes NotFound, the
rewriter returns the input module itself: no section, custom sections and the
export section included, is altered. -/
theorem notFound_leaves_module_unchanged (m : Module)
    (h : detect m = Except.ok Outcome.notFound) :
    export_malloc m = Except.ok m := by
  rw [export_malloc_eq_detect, h]

/-- C4 witness: on exC4, which carries an unrelated export, an import, a type
section and an opaque custom section, the engine finds nothing and the
rewriter returns the module unchanged. -/
theorem notFound_leaves_module_unchanged_witness :
    detect exC4 = Except.ok Outcome.notFound ∧
      export_malloc exC4 = Except.ok exC4 :=
  ⟨by decide, notFound_leaves_module_unchanged exC4 (by decide)⟩

/-- C2 counterexample: in exC2 a dlmalloc function entry precedes the malloc
entry, and the export scan stops at the dlmalloc entry: the engine returns
Found 0 instead of Satisfied and the module is changed. -/
theorem malloc_export_priority_cex :
    find_from_exports exC2 = Except.ok (some (⟨0⟩, false)) ∧
      detect exC2 = Except.ok (Outcome.found ⟨0⟩) ∧
      export_malloc exC2 ≠ Except.ok exC2 := by
  decide

/-- C2 (amended): for every module whose export section reaches a malloc
function entry before any dlmalloc function entry, the engine returns
Satisfied and the module is left completely unchanged, regardless of any other
export entries and regardless of whether later strategies would also match. -/
theorem malloc_first_entry_satisfied (m : Module) (b : Blob (List Export))
    (l1 l2 : List Export) (i : FuncId)
    (hfind : findStdExportL m.sections = some b)
    (hdec : b.try_contents = Except.ok (l1 ++ ⟨"malloc", ExportDesc.func i⟩ :: l2))
    (hl1 : ∀ e ∈ l1, isAllocEntry e = false) :
    find_from_exports m = Except.ok (some (i, true)) ∧
      export_malloc m = Except.ok m := by
  have hfe : find_from_exports m = Except.ok (some (i, true)) := by
    simp only [find_from_exports, hfind, hdec]
    rw [findExportEntry_append_skip l1 _ hl1, findExportEntry_malloc]
  exact ⟨hfe, by simp only [export_malloc, hfe]⟩

/-- C2 witness: exC2w exports malloc as function 3 behind an unrelated entry
and in front of a dlmalloc entry, and also carries the full strategy-3 call
pattern; the run leaves it unchanged. -/
theorem malloc_first_entry_satisfied_witness :
    find_from_exports exC2w = Except.ok (some (⟨3⟩, true)) ∧
      export_malloc exC2w = Except.ok exC2w :=
  malloc_first_entry_satisfied exC2w
    (Blob.val [⟨"memory", ExportDesc.mem 0⟩, ⟨"malloc", ExportDesc.func ⟨3⟩⟩,
      ⟨"dlmalloc", ExportDesc.func ⟨2⟩⟩])
    [⟨"memory", ExportDesc.mem 0⟩] [⟨"dlmalloc", ExportDesc.func ⟨2⟩⟩] ⟨3⟩
    (by decide) (by decide) (by decide)

theorem findStdExportL_append_low (s1 : List Section) (b : Blob (List Export))
    (s2 : List Section) (hs1 : ∀ s ∈ s1, sectionOrder s < 7) :
    findStdExportL (s1 ++ Section.exportSec b :: s2) = some b := by
  induction s1 with
  | nil => rfl
  | cons s rest ih =>
      rw [List.cons_append, findStdExportL_cons s _
        (isExportSec_false_of_low s (hs1 s (List.mem_cons_self _ _))),
        ih (fun x hx => hs1 x (List.mem_cons_of_mem _ hx))]

theorem insertMallocEntry_append_export (e : Export) (s1 : List Section)
    (b : Blob (List Export)) (s2 : List Section) (l : List Export)
    (hs1 : ∀ s ∈ s1, sectionOrder s < 7)
    (hdec : b.try_contents = Except.ok l) :
    insertMallocEntry e (s1 ++ Section.exportSec b :: s2) =
      Except.ok (s1 ++ Section.exportSec (Blob.val (l ++ [e])) :: s2) := by
  induction s1 with
  | nil =>
      rw [List.nil_append, insertMallocEntry_cons_export, hdec]
      rfl
  | cons s rest ih =>
      rw [List.cons_append,
        insertMallocEntry_cons_low e s _ (hs1 s (List.mem_cons_self _ _)),
        ih (fun x hx => hs1 x (List.mem_cons_of_mem _ hx))]
      rfl

/-- C5 counterexample: exC5 contains the export entry (dlmalloc, Func 1)
mapped to a function and no malloc-named entry, yet the engine stops at the
earlier dlmalloc entry: it returns Found 0, not Found 1, and the output gains
(malloc, Func 0) rather than (malloc, Func 1). -/
theorem dlmalloc_found_cex :
    (⟨"dlmalloc", ExportDesc.func ⟨1⟩⟩ : Export) ∈
        exportEntriesVal exC5.sections ∧
      (∀ e ∈ exportEntriesVal exC5.sections, e.name ≠ "malloc") ∧
      find_from_exports exC5 = Except.ok (some (⟨0⟩, false)) ∧
      export_malloc exC5 = Except.ok exC5out ∧
      ⟨"malloc", ExportDesc.func ⟨1⟩⟩ ∉ exportEntriesVal exC5out.sections := by
  decide

/-- C5 (amended): for every module whose export section's first malloc-or-
dlmalloc function entry is (dlmalloc, Func i), the engine returns Found i
without consulting strategies 2 to 4, and the output's export section gains
exactly the appended entry (malloc, Func i) while everything else is
unchanged. -/
theorem dlmalloc_first_entry_found (m : Module) (s1 s2 : List Section)
    (b : Blob (List Export)) (l1 l2 : List Export) (i : FuncId)
    (hsec : m.sections = s1 ++ Section.exportSec b :: s2)
    (hs1 : ∀ s ∈ s1, sectionOrder s < 7)
    (hdec : b.try_contents =
      Except.ok (l1 ++ ⟨"dlmalloc", ExportDesc.func i⟩ :: l2))
    (hl1 : ∀ e ∈ l1, isAllocEntry e = false) :
    find_from_exports m = Except.ok (some (i, false)) ∧
      export_malloc m = Except.ok ⟨s1 ++ Section.exportSec (Blob.val
        ((l1 ++ ⟨"dlmalloc", ExportDesc.func i⟩ :: l2) ++
          [⟨"malloc", ExportDesc.func i⟩])) :: s2⟩ := by
  have hfind := findStdExportL_append_low s1 b s2 hs1
  have hfe : find_from_exports m = Except.ok (some (i, false)) := by
    simp only [find_from_exports, hsec, hfind, hdec]
    rw [findExportEntry_append_skip l1 _ hl1, findExportEntry_dlmalloc]
  refine ⟨hfe, ?_⟩
  simp only [export_malloc, hfe, pushMalloc, hsec,
    insertMallocEntry_append_export _ s1 b s2 _ hs1 hdec]

/-- C5 witness: exC5w exports dlmalloc as function 5 behind an unrelated
entry; the run returns Found 5 and appends (malloc, Func 5). -/
theorem dlmalloc_first_entry_found_witness :
    find_from_exports exC5w = Except.ok (some (⟨5⟩, false)) ∧
      export_malloc exC5w = Except.ok ⟨[] ++ Section.exportSec (Blob.val
        (([⟨"memory", ExportDesc.mem 0⟩] ++
            ⟨"dlmalloc", ExportDesc.func ⟨5⟩⟩ :: []) ++
          [⟨"malloc", ExportDesc.func ⟨5⟩⟩])) :: []⟩ :=
  dlmalloc_first_entry_found exC5w [] []
    (Blob.val [⟨"memory", ExportDesc.mem 0⟩, ⟨"dlmalloc", ExportDesc.func ⟨5⟩⟩])
    [⟨"memory", ExportDesc.mem 0⟩] [] ⟨5⟩
    (by decide) (fun s hs => absurd hs (List.not_mem_nil s))
    (by decide) (by decide)

theorem insertMallocEntry_satisfied (i : FuncId) (ss ss' : List Section)
    (hfe : find_from_exports ⟨ss⟩ = Except.ok none)
    (hins : insertMallocEntry ⟨"malloc", ExportDesc.func i⟩ ss = Except.ok ss') :
    find_from_exports ⟨ss'⟩ = Except.ok (some (i, true)) := by
  induction ss generalizing ss' with
  | nil =>
      injection hins with h
      subst h
      rfl
  | cons s rest ih =>
      by_cases hexp : isExportSec s = true
      · obtain ⟨b, rfl⟩ := getExportBlob_of_isExportSec s hexp
        rw [insertMallocEntry_cons_export] at hins
        have hfe2 : (match b.try_contents with
            | Except.error e => Except.error e
            | Except.ok exports => Except.ok (findExportEntry exports)) =
            Except.ok (none : Option (FuncId × Bool)) := hfe
        cases hb : b.try_contents with
        | error e =>
            rw [hb] at hfe2
            exact absurd hfe2 (by simp)
        | ok l =>
            rw [hb] at hins hfe2
            injection hins with h
            subst h
            injection hfe2 with hl
            have hl' : ∀ x ∈ l, isAllocEntry x = false :=
              (findExportEntry_eq_none_iff l).mp hl
            show Except.ok (findExportEntry
              (l ++ [⟨"malloc", ExportDesc.func i⟩])) = _
            rw [findExportEntry_append_skip l _ hl', findExportEntry_malloc]
      · have h8 : isExportSec s = false := by
          cases hv : isExportSec s
          · rfl
          · exact absurd hv hexp
        by_cases hhigh : sectionOrder s > 7
        · rw [insertMallocEntry_cons_high _ s rest hhigh] at hins
          injection hins with h
          subst h
          rfl
        · have hlow : sectionOrder s < 7 := by
            rcases Nat.lt_or_ge (sectionOrder s) 7 with h | h
            · exact h
            · have h7 : sectionOrder s = 7 := by omega
              rw [isExportSec_of_order s h7] at h8
              exact absurd h8 (by simp)
          rw [insertMallocEntry_cons_low _ s rest hlow] at hins
          cases hrec : insertMallocEntry ⟨"malloc", ExportDesc.func i⟩ rest with
          | error e =>
              rw [hrec] at hins
              exact absurd hins (by simp)
          | ok rest' =>
              rw [hrec] at hins
              injection hins with h
              subst h
              rw [find_from_exports_cons s rest' h8]
              refine ih rest' ?_ hrec
              rw [← find_from_exports_cons s rest h8]
              exact hfe

theorem export_malloc_after_push (m : Module) (f : FuncId) (m1 : Module)
    (hfe : find_from_exports m = Except.ok none)
    (hpush : pushMalloc m f = Except.ok m1) :
    export_malloc m1 = Except.ok m1 := by
  unfold pushMalloc at hpush
  cases hins : insertMallocEntry ⟨"malloc", ExportDesc.func f⟩ m.sections with
  | error e =>
      rw [hins] at hpush
      exact absurd hpush (by simp)
  | ok ss' =>
      rw [hins] at hpush
      injection hpush with h
      subst h
      have hsat := insertMallocEntry_satisfied f m.sections ss' hfe hins
      unfold export_malloc
      rw [hsat]

/-- C1 corrected, counterexample: on exC1, whose only export is a dlmalloc
entry, the first run appends a malloc entry and the second run, fed the first
run's output, appends another one: the second output differs from the first,
because the export scan stops at the dlmalloc entry again. -/
theorem idempotence_cex :
    export_malloc exC1 = Except.ok exC1run1 ∧
      export_malloc exC1run1 = Except.ok exC1run2 ∧
      exC1run2 ≠ exC1run1 := by
  decide

/-- C1 (amended): running the tool twice in sequence, with the second run's
input equal to the first run's output, produces a module identical to the
first run's output for every input module whose export scan does not stop at
a dlmalloc entry; on such inputs the second pass's export scan returns
Satisfied and no export entry is appended. -/
theorem export_malloc_idempotent_no_dlmalloc (m m1 : Module)
    (hnodl : ∀ i, find_from_exports m ≠ Except.ok (some (i, false)))
    (hrun : export_malloc m = Except.ok m1) :
    export_malloc m1 = Except.ok m1 := by
  unfold export_malloc at hrun
  cases hfe : find_from_exports m with
  | error e =>
      rw [hfe] at hrun
      exact absurd hrun (by simp)
  | ok v =>
      rw [hfe] at hrun
      rcases v with _ | ⟨f, b⟩
      · cases hn : find_from_name_section m with
        | error e =>
            rw [hn] at hrun
            exact absurd hrun (by simp)
        | ok w =>
            rw [hn] at hrun
            rcases w with _ | f
            · cases h3 : find_by_wasi m "wasi_snapshot_preview1"
                  "environ_sizes_get" with
              | error e =>
                  rw [h3] at hrun
                  exact absurd hrun (by simp)
              | ok x =>
                  rw [h3] at hrun
                  rcases x with _ | f
                  · cases h4 : find_by_wasi m "wasi_snapshot_preview1"
                        "args_sizes_get" with
                    | error e =>
                        rw [h4] at hrun
                        exact absurd hrun (by simp)
                    | ok y =>
                        rw [h4] at hrun
                        rcases y with _ | f
                        · injection hrun with h
                          subst h
                          unfold export_malloc
                          rw [hfe, hn, h3, h4]
                        · exact export_malloc_after_push m f m1 hfe hrun
                  · exact export_malloc_after_push m f m1 hfe hrun
            · exact export_malloc_after_push m f m1 hfe hrun
      · cases b
        · exact absurd hfe (hnodl f)
        · injection hrun with h
          subst h
          unfold export_malloc
          rw [hfe]

/-- C1 witness: exC1w has no export section and a debug-name entry for
function 7; the first run produces exC1wOut and a second run on exC1wOut
reproduces it unchanged. -/
theorem export_malloc_idempotent_no_dlmalloc_witness :
    export_malloc exC1w = Except.ok exC1wOut ∧
      export_malloc exC1wOut = Except.ok exC1wOut :=
  ⟨by decide, export_malloc_idempotent_no_dlmalloc exC1w exC1wOut
    (fun i h => Option.noConfusion (Except.ok.inj h)) (by decide)⟩

theorem scanNameAssocs_eq (items : List NameAssoc) :
    scanNameAssocs items =
      (items.find?
        (fun a => a.value == "malloc" || a.value == "dlmalloc")).map
        NameAssoc.index := by
  induction items with
  | nil => rfl
  | cons a rest ih =>
      by_cases hv : a.value = "malloc" ∨ a.value = "dlmalloc"
      · have hb : (a.value == "malloc" || a.value == "dlmalloc") = true := by
          rcases hv with h | h <;> simp [h]
        rw [@List.find?_cons_of_pos NameAssoc
          (fun a => a.value == "malloc" || a.value == "dlmalloc") a rest hb]
        simp only [scanNameAssocs, if_pos hv]
        rfl
      · have hb : (a.value == "malloc" || a.value == "dlmalloc") = false := by
          rcases not_or.mp hv with ⟨h1, h2⟩
          simp [h1, h2]
        rw [@List.find?_cons_of_neg NameAssoc
          (fun a => a.value == "malloc" || a.value == "dlmalloc") a rest
          (by simp [hb])]
        simp only [scanNameAssocs, if_neg hv]
        exact ih

theorem scanSubSections_eq (subs : List NameSubSection)
    (h : subs.all (fun sub => match sub with
      | NameSubSection.func fb => fb.isVal
      | _ => true) = true) :
    scanSubSections subs = Except.ok
      (((subEntries subs).find?
        (fun a => a.value == "malloc" || a.value == "dlmalloc")).map
        NameAssoc.index) := by
  induction subs with
  | nil => rfl
  | cons sub rest ih =>
      rw [List.all_cons, Bool.and_eq_true] at h
      cases sub with
      | mod b => exact ih h.2
      | loc b => exact ih h.2
      | func fb =>
          cases fb with
          | err e => simp [Blob.isVal] at h
          | val nm =>
              have hsub : subEntries (NameSubSection.func (Blob.val nm) :: rest) =
                  nm.items ++ subEntries rest := rfl
              show (match scanNameAssocs nm.items with
                | some i => Except.ok (some i)
                | none => scanSubSections rest) = _
              rw [scanNameAssocs_eq, hsub, List.find?_append]
              cases hfind : nm.items.find?
                  (fun a => a.value == "malloc" || a.value == "dlmalloc") with
              | some a => rfl
              | none => exact ih h.2

theorem findNameL_eq (ss : List Section) (h : nameSectionsOk ss = true) :
    findNameL ss = Except.ok
      (((allFuncNameEntries ss).find?
        (fun a => a.value == "malloc" || a.value == "dlmalloc")).map
        NameAssoc.index) := by
  induction ss with
  | nil => rfl
  | cons s rest ih =>
      rw [nameSectionsOk, List.all_cons, Bool.and_eq_true] at h
      have h2 : nameSectionsOk rest = true := h.2
      cases hcb : getCustomBlob s with
      | none =>
          simp only [findNameL, allFuncNameEntries, hcb]
          exact ih h2
      | some cb =>
          have hok : customBlobsOk cb = true := by
            have h1 := h.1
            rw [sectionNameOk, hcb] at h1
            exact h1
          cases cb with
          | err e => simp [customBlobsOk] at hok
          | val cs =>
              cases cs with
              | other nm bytes =>
                  simp only [findNameL, allFuncNameEntries, hcb,
                    Blob.try_contents]
                  exact ih h2
              | name nb =>
                  cases nb with
                  | err e => simp [customBlobsOk] at hok
                  | val subs =>
                      have hsubs : subs.all (fun sub => match sub with
                          | NameSubSection.func fb => fb.isVal
                          | _ => true) = true := by
                        simpa [customBlobsOk] using hok
                      simp only [findNameL, allFuncNameEntries, hcb,
                        Blob.try_contents]
                      rw [scanSubSections_eq subs hsubs, List.find?_append]
                      cases hfind : (subEntries subs).find?
                          (fun a => a.value == "malloc" ||
                            a.value == "dlmalloc") with
                      | some a => rfl
                      | none => exact ih h2

/-- C7: when strategy 1 is inconclusive, the name-metadata scan returns
exactly the first entry, in stored order across the function-name sub-sections
of the debug-name custom sections, whose name is malloc or dlmalloc, and
yields nothing when no entry matches, so the chain proceeds to strategy 3. -/
theorem name_section_first_match (m : Module)
    (h : nameSectionsOk m.sections = true) :
    find_from_name_section m = Except.ok (specFirstAllocNameEntry m) :=
  findNameL_eq m.sections h

/-- C7 witness: on exC7 the first matching stored entry is (7, malloc) in the
first function-name sub-section, before the (9, dlmalloc) entry. -/
theorem name_section_first_match_witness :
    nameSectionsOk exC7.sections = true ∧
      find_from_name_section exC7 = Except.ok (specFirstAllocNameEntry exC7) ∧
      specFirstAllocNameEntry exC7 = some ⟨7⟩ :=
  ⟨by decide, name_section_first_match exC7 (by decide), by decide⟩

theorem try_contents_ok_of_isVal (b : Blob α) (h : b.isVal = true) :
    ∃ x, b.try_contents = Except.ok x := by
  cases b with
  | err e => simp [Blob.isVal] at h
  | val a => exact ⟨a, rfl⟩

theorem findStdExportL_mem (ss : List Section) (b : Blob (List Export))
    (h : findStdExportL ss = some b) : Section.exportSec b ∈ ss := by
  induction ss with
  | nil => exact absurd h (by simp [findStdExportL])
  | cons s rest ih =>
      cases s <;>
        first
          | (injection h with h'; rw [← h']; exact List.mem_cons_self _ _)
          | exact List.mem_cons_of_mem _ (ih h)

theorem findStdImportL_mem (ss : List Section) (b : Blob (List Import))
    (h : findStdImportL ss = some b) : Section.importSec b ∈ ss := by
  induction ss with
  | nil => exact absurd h (by simp [findStdImportL])
  | cons s rest ih =>
      cases s <;>
        first
          | (injection h with h'; rw [← h']; exact List.mem_cons_self _ _)
          | exact List.mem_cons_of_mem _ (ih h)

theorem findStdTypeL_mem (ss : List Section) (b : Blob (List FuncType))
    (h : findStdTypeL ss = some b) : Section.typeSec b ∈ ss := by
  induction ss with
  | nil => exact absurd h (by simp [findStdTypeL])
  | cons s rest ih =>
      cases s <;>
        first
          | (injection h with h'; rw [← h']; exact List.mem_cons_self _ _)
          | exact List.mem_cons_of_mem _ (ih h)

theorem findStdFunctionL_mem (ss : List Section) (b : Blob (List TypeId))
    (h : findStdFunctionL ss = some b) : Section.function b ∈ ss := by
  induction ss with
  | nil => exact absurd h (by simp [findStdFunctionL])
  | cons s rest ih =>
      cases s <;>
        first
          | (injection h with h'; rw [← h']; exact List.mem_cons_self _ _)
          | exact List.mem_cons_of_mem _ (ih h)

theorem findStdCodeL_mem (ss : List Section) (b : Blob (List (Blob FuncBody)))
    (h : findStdCodeL ss = some b) : Section.code b ∈ ss := by
  induction ss with
  | nil => exact absurd h (by simp [findStdCodeL])
  | cons s rest ih =>
      cases s <;>
        first
          | (injection h with h'; rw [← h']; exact List.mem_cons_self _ _)
          | exact List.mem_cons_of_mem _ (ih h)

theorem sectionBlobsOk_of_mem (ss : List Section) (s : Section)
    (hall : allBlobsOk ss = true) (hmem : s ∈ ss) : sectionBlobsOk s = true :=
  List.all_eq_true.mp hall s hmem

theorem sectionNameOk_of_blobsOk (s : Section) (h : sectionBlobsOk s = true) :
    sectionNameOk s = true := by
  cases s <;> first | rfl | exact h

theorem sectionOrder_lt_of (s : Section) (h8 : isExportSec s = false)
    (hh : ¬ sectionOrder s > 7) : sectionOrder s < 7 := by
  rcases Nat.lt_or_ge (sectionOrder s) 7 with h | h
  · exact h
  · have h7 : sectionOrder s = 7 := by omega
    rw [isExportSec_of_order s h7] at h8
    exact absurd h8 (by simp)

theorem find_from_exports_ok (m : Module) (hall : allBlobsOk m.sections = true) :
    ∃ r, find_from_exports m = Except.ok r := by
  cases hfx : findStdExportL m.sections with
  | none => exact ⟨none, by simp only [find_from_exports, hfx]⟩
  | some b =>
      have hmem := findStdExportL_mem m.sections b hfx
      have hsec : sectionBlobsOk (Section.exportSec b) = true :=
        sectionBlobsOk_of_mem m.sections _ hall hmem
      obtain ⟨l, hl⟩ := try_contents_ok_of_isVal b hsec
      exact ⟨findExportEntry l, by simp only [find_from_exports, hfx, hl]⟩

theorem find_from_name_section_ok (m : Module)
    (hall : allBlobsOk m.sections = true) :
    ∃ r, find_from_name_section m = Except.ok r := by
  have hname : nameSectionsOk m.sections = true := by
    rw [nameSectionsOk, List.all_eq_true]
    intro s hs
    exact sectionNameOk_of_blobsOk s (sectionBlobsOk_of_mem m.sections s hall hs)
  exact ⟨_, findNameL_eq m.sections hname⟩

theorem scanBodies_ok (ifs : Nat) (a : FuncId) (funcs : List TypeId)
    (types : List FuncType) (bodies : List (Blob FuncBody))
    (h : ∀ bb ∈ bodies, Blob.isVal bb = true) :
    ∃ r, scanBodies ifs a funcs types bodies = Except.ok r := by
  induction bodies with
  | nil => exact ⟨none, rfl⟩
  | cons bb rest ih =>
      obtain ⟨body, hb⟩ :=
        try_contents_ok_of_isVal bb (h bb (List.mem_cons_self _ _))
      cases hs : scanExpr ifs a funcs types body.expr false with
      | found f => exact ⟨some f, by simp only [scanBodies, hb, hs]⟩
      | veto => exact ⟨none, by simp only [scanBodies, hb, hs]⟩
      | cont flag =>
          obtain ⟨r, hr⟩ := ih (fun x hx => h x (List.mem_cons_of_mem _ hx))
          exact ⟨r, by simp only [scanBodies, hb, hs]; exact hr⟩

theorem find_by_wasi_ok (m : Module) (hall : allBlobsOk m.sections = true)
    (module_name func_name : String) :
    ∃ r, find_by_wasi m module_name func_name = Except.ok r := by
  obtain ⟨ifs, tgt, himp⟩ : ∃ ifs tgt,
      importData m module_name func_name = Except.ok (ifs, tgt) := by
    cases hfi : findStdImportL m.sections with
    | none => exact ⟨0, none, by simp only [importData, hfi]⟩
    | some b =>
        have hsec := sectionBlobsOk_of_mem m.sections _ hall
          (findStdImportL_mem m.sections b hfi)
        obtain ⟨l, hl⟩ := try_contents_ok_of_isVal b hsec
        exact ⟨(importFold module_name func_name l 0 none).1,
          (importFold module_name func_name l 0 none).2,
          by simp only [importData, hfi, hl]⟩
  cases tgt with
  | none => exact ⟨none, by simp only [find_by_wasi, himp]⟩
  | some anchor =>
      obtain ⟨types, ht⟩ : ∃ l, typesOf m = Except.ok l := by
        cases hft : findStdTypeL m.sections with
        | none => exact ⟨[], by simp only [typesOf, hft]⟩
        | some b =>
            have hsec := sectionBlobsOk_of_mem m.sections _ hall
              (findStdTypeL_mem m.sections b hft)
            obtain ⟨l, hl⟩ := try_contents_ok_of_isVal b hsec
            exact ⟨l, by simp only [typesOf, hft]; exact hl⟩
      obtain ⟨funcs, hf⟩ : ∃ l, funcsOf m = Except.ok l := by
        cases hff : findStdFunctionL m.sections with
        | none => exact ⟨[], by simp only [funcsOf, hff]⟩
        | some b =>
            have hsec := sectionBlobsOk_of_mem m.sections _ hall
              (findStdFunctionL_mem m.sections b hff)
            obtain ⟨l, hl⟩ := try_contents_ok_of_isVal b hsec
            exact ⟨l, by simp only [funcsOf, hff]; exact hl⟩
      obtain ⟨bodies, hbod, hbok⟩ : ∃ l, bodiesOf m = Except.ok l ∧
          ∀ bb ∈ l, Blob.isVal bb = true := by
        cases hfc : findStdCodeL m.sections with
        | none =>
            exact ⟨[], by simp only [bodiesOf, hfc],
              fun bb hbb => absurd hbb (List.not_mem_nil bb)⟩
        | some b =>
            have hsec := sectionBlobsOk_of_mem m.sections _ hall
              (findStdCodeL_mem m.sections b hfc)
            cases b with
            | err e => simp [sectionBlobsOk] at hsec
            | val l =>
                refine ⟨l, by simp only [bodiesOf, hfc]; rfl, ?_⟩
                have hl : l.all Blob.isVal = true := by
                  simpa [sectionBlobsOk] using hsec
                exact List.all_eq_true.mp hl
      obtain ⟨r, hr⟩ := scanBodies_ok ifs anchor funcs types bodies hbok
      exact ⟨r, by simp only [find_by_wasi, himp, ht, hf, hbod]; exact hr⟩

theorem insertMallocEntry_ok (e : Export) (ss : List Section)
    (hall : allBlobsOk ss = true) :
    ∃ ss', insertMallocEntry e ss = Except.ok ss' := by
  induction ss with
  | nil => exact ⟨_, rfl⟩
  | cons s rest ih =>
      rw [allBlobsOk, List.all_cons, Bool.and_eq_true] at hall
      have hs : sectionBlobsOk s = true := hall.1
      have hrest : allBlobsOk rest = true := hall.2
      by_cases hexp : isExportSec s = true
      · obtain ⟨b, rfl⟩ := getExportBlob_of_isExportSec s hexp
        obtain ⟨l, hl⟩ := try_contents_ok_of_isVal b hs
        exact ⟨_, by rw [insertMallocEntry_cons_export, hl]⟩
      · have h8 : isExportSec s = false := by
          cases hv : isExportSec s
          · rfl
          · exact absurd hv hexp
        by_cases hhigh : sectionOrder s > 7
        · exact ⟨_, insertMallocEntry_cons_high e s rest hhigh⟩
        · obtain ⟨rest', hr⟩ := ih hrest
          exact ⟨s :: rest',
            by rw [insertMallocEntry_cons_low e s rest
              (sectionOrder_lt_of s h8 hhigh), hr]⟩

theorem export_malloc_ok (m : Module) (hall : allBlobsOk m.sections = true) :
    ∃ m2, export_malloc m = Except.ok m2 := by
  obtain ⟨r1, h1⟩ := find_from_exports_ok m hall
  have hpush : ∀ f, ∃ m2, pushMalloc m f = Except.ok m2 := by
    intro f
    obtain ⟨ss', hs⟩ :=
      insertMallocEntry_ok ⟨"malloc", ExportDesc.func f⟩ m.sections hall
    exact ⟨⟨ss'⟩, by simp only [pushMalloc, hs]⟩
  rcases r1 with _ | ⟨f, b⟩
  · obtain ⟨r2, h2⟩ := find_from_name_section_ok m hall
    rcases r2 with _ | f
    · obtain ⟨r3, h3⟩ :=
        find_by_wasi_ok m hall "wasi_snapshot_preview1" "environ_sizes_get"
      rcases r3 with _ | f
      · obtain ⟨r4, h4⟩ :=
          find_by_wasi_ok m hall "wasi_snapshot_preview1" "args_sizes_get"
        rcases r4 with _ | f
        · exact ⟨m, by simp only [export_malloc, h1, h2, h3, h4]⟩
        · obtain ⟨m2, hp⟩ := hpush f
          exact ⟨m2, by simp only [export_malloc, h1, h2, h3, h4]; exact hp⟩
      · obtain ⟨m2, hp⟩ := hpush f
        exact ⟨m2, by simp only [export_malloc, h1, h2, h3]; exact hp⟩
    · obtain ⟨m2, hp⟩ := hpush f
      exact ⟨m2, by simp only [export_malloc, h1, h2]; exact hp⟩
  · cases b
    · obtain ⟨m2, hp⟩ := hpush f
      exact ⟨m2, by simp only [export_malloc, h1]; exact hp⟩
    · exact ⟨m, by simp only [export_malloc, h1]⟩

/-- C8: the detection engine never raises for absence of a match, a section,
an import or a name entry: on every module whose read sections decode
successfully, each strategy and the whole rewriter return a normal Ok outcome;
by the result type, a failure could only be a DecodeError from a section
decode. -/
theorem decode_ok_no_error (m : Module) (h : allBlobsOk m.sections = true) :
    (∃ r1, find_from_exports m = Except.ok r1) ∧
      (∃ r2, find_from_name_section m = Except.ok r2) ∧
      (∀ module_name func_name, ∃ r3,
        find_by_wasi m module_name func_name = Except.ok r3) ∧
      (∃ m2, export_malloc m = Except.ok m2) :=
  ⟨find_from_exports_ok m h, find_from_name_section_ok m h,
    fun mn fn => find_by_wasi_ok m h mn fn, export_malloc_ok m h⟩

/-- C8 witness: exC8 touches every section kind the engine reads, all
decodable, and every strategy as well as the rewriter returns Ok on it. -/
theorem decode_ok_no_error_witness :
    allBlobsOk exC8.sections = true ∧
      (∃ m2, export_malloc exC8 = Except.ok m2) :=
  ⟨by decide, (decode_ok_no_error exC8 (by decide)).2.2.2⟩

/-! Helper lemmas about the mutator's frame. -/

theorem isExportSec_false_from_not (s : Section) (h : ¬ isExportSec s = true) :
    isExportSec s = false := by
  cases hv : isExportSec s
  · rfl
  · exact absurd hv h

theorem sectionOrder_eq_seven_of_export (s : Section)
    (h : isExportSec s = true) : sectionOrder s = 7 := by
  cases s <;> first | rfl | simp [isExportSec] at h

theorem isCustomSec_false_of_high (s : Section) (h : sectionOrder s > 7) :
    isCustomSec s = false := by
  cases s <;> first | rfl | simp [sectionOrder] at h

theorem stdKindsOf_cons_custom (s : Section) (l : List Section)
    (h : isCustomSec s = true) : stdKindsOf (s :: l) = stdKindsOf l := by
  cases s <;> first | rfl | simp [isCustomSec] at h

theorem stdKindsOf_cons_std (s : Section) (l : List Section)
    (h : isCustomSec s = false) :
    stdKindsOf (s :: l) = sectionOrder s :: stdKindsOf l := by
  cases s <;> first | rfl | simp [isCustomSec] at h

theorem isExportSec_false_of_custom (s : Section) (h : isCustomSec s = true) :
    isExportSec s = false := by
  cases s <;> first | rfl | simp [isCustomSec] at h

theorem nonExportSections_cons_ne (s : Section) (l : List Section)
    (h : isExportSec s = false) :
    nonExportSections (s :: l) = s :: nonExportSections l := by
  simp [nonExportSections, List.filter_cons, h]

theorem nonExportSections_cons_export (b : Blob (List Export))
    (l : List Section) :
    nonExportSections (Section.exportSec b :: l) = nonExportSections l := by
  simp [nonExportSections, List.filter_cons, isExportSec]

theorem exportEntriesVal_cons_ne (s : Section) (l : List Section)
    (h : isExportSec s = false) :
    exportEntriesVal (s :: l) = exportEntriesVal l := by
  simp only [exportEntriesVal, findStdExportL_cons s l h]

theorem sortedFrom_lt (l : List Nat) :
    ∀ b, sortedFrom b l = true → ∀ x ∈ l, b < x := by
  induction l with
  | nil =>
      intro b _ x hx
      exact absurd hx (List.not_mem_nil x)
  | cons a rest ih =>
      intro b h x hx
      rw [sortedFrom, Bool.and_eq_true, decide_eq_true_eq] at h
      rcases List.mem_cons.mp hx with rfl | hx'
      · exact h.1
      · exact Nat.lt_trans h.1 (ih a h.2 x hx')

theorem findStdExportL_none_of_gt (ss : List Section)
    (h : ∀ k ∈ stdKindsOf ss, 7 < k) : findStdExportL ss = none := by
  induction ss with
  | nil => rfl
  | cons s rest ih =>
      cases hc : isCustomSec s with
      | true =>
          rw [findStdExportL_cons s rest (isExportSec_false_of_custom s hc)]
          refine ih ?_
          intro k hk
          exact h k (by rw [stdKindsOf_cons_custom s rest hc]; exact hk)
      | false =>
          have hs7 : 7 < sectionOrder s := h (sectionOrder s)
            (by rw [stdKindsOf_cons_std s rest hc]; exact List.mem_cons_self _ _)
          have h8 : isExportSec s = false := by
            cases hv : isExportSec s
            · rfl
            · rw [sectionOrder_eq_seven_of_export s hv] at hs7
              omega
          rw [findStdExportL_cons s rest h8]
          refine ih ?_
          intro k hk
          exact h k
            (by rw [stdKindsOf_cons_std s rest hc]; exact List.mem_cons_of_mem _ hk)

theorem insertMallocEntry_nonExport (e : Export) (ss : List Section) :
    ∀ ss', insertMallocEntry e ss = Except.ok ss' →
      nonExportSections ss' = nonExportSections ss := by
  induction ss with
  | nil =>
      intro ss' h
      injection h with h'
      subst h'
      rfl
  | cons s rest ih =>
      intro ss' h
      by_cases hexp : isExportSec s = true
      · obtain ⟨b, rfl⟩ := getExportBlob_of_isExportSec s hexp
        rw [insertMallocEntry_cons_export] at h
        cases b with
        | err e3 => exact absurd h (by simp [Blob.try_contents])
        | val l =>
            injection h with h'
            subst h'
            rw [nonExportSections_cons_export, nonExportSections_cons_export]
      · have h8 := isExportSec_false_from_not s hexp
        by_cases hhigh : sectionOrder s > 7
        · rw [insertMallocEntry_cons_high e s rest hhigh] at h
          injection h with h'
          subst h'
          rw [nonExportSections_cons_export, nonExportSections_cons_ne s rest h8]
        · rw [insertMallocEntry_cons_low e s rest
            (sectionOrder_lt_of s h8 hhigh)] at h
          cases hrec : insertMallocEntry e rest with
          | error e2 =>
              rw [hrec] at h
              exact absurd h (by simp)
          | ok rest' =>
              rw [hrec] at h
              injection h with h'
              subst h'
              rw [nonExportSections_cons_ne s rest' h8,
                nonExportSections_cons_ne s rest h8, ih rest' hrec]

theorem insertMallocEntry_entries (e : Export) (ss : List Section) :
    ∀ (bound : Nat) (ss' : List Section),
      sortedFrom bound (stdKindsOf ss) = true →
      insertMallocEntry e ss = Except.ok ss' →
      exportEntriesVal ss' = exportEntriesVal ss ++ [e] := by
  induction ss with
  | nil =>
      intro bound ss' _ h
      injection h with h'
      subst h'
      rfl
  | cons s rest ih =>
      intro bound ss' hord h
      by_cases hexp : isExportSec s = true
      · obtain ⟨b, rfl⟩ := getExportBlob_of_isExportSec s hexp
        rw [insertMallocEntry_cons_export] at h
        cases b with
        | err e3 => exact absurd h (by simp [Blob.try_contents])
        | val l =>
            injection h with h'
            subst h'
            rfl
      · have h8 := isExportSec_false_from_not s hexp
        by_cases hhigh : sectionOrder s > 7
        · rw [insertMallocEntry_cons_high e s rest hhigh] at h
          injection h with h'
          subst h'
          have hcs : isCustomSec s = false := isCustomSec_false_of_high s hhigh
          rw [stdKindsOf_cons_std s rest hcs, sortedFrom, Bool.and_eq_true,
            decide_eq_true_eq] at hord
          have hnone : findStdExportL rest = none := by
            refine findStdExportL_none_of_gt rest ?_
            intro k hk
            exact Nat.lt_trans hhigh (sortedFrom_lt (stdKindsOf rest)
              (sectionOrder s) hord.2 k hk)
          rw [exportEntriesVal_cons_ne s rest h8]
          rw [show exportEntriesVal (Section.exportSec (Blob.val [e]) :: s :: rest)
            = [e] from rfl]
          rw [show exportEntriesVal rest = [] from by
            simp only [exportEntriesVal, hnone]]
          rfl
        · rw [insertMallocEntry_cons_low e s rest
            (sectionOrder_lt_of s h8 hhigh)] at h
          cases hrec : insertMallocEntry e rest with
          | error e2 =>
              rw [hrec] at h
              exact absurd h (by simp)
          | ok rest' =>
              rw [hrec] at h
              injection h with h'
              subst h'
              rw [exportEntriesVal_cons_ne s rest' h8,
                exportEntriesVal_cons_ne s rest h8]
              cases hc : isCustomSec s with
              | true =>
                  rw [stdKindsOf_cons_custom s rest hc] at hord
                  exact ih bound rest' hord hrec
              | false =>
                  rw [stdKindsOf_cons_std s rest hc, sortedFrom,
                    Bool.and_eq_true] at hord
                  exact ih (sectionOrder s) rest' hord.2 hrec

theorem insertMallocEntry_sorted (e : Export) (ss : List Section) :
    ∀ (bound : Nat) (ss' : List Section), bound < 7 →
      sortedFrom bound (stdKindsOf ss) = true →
      insertMallocEntry e ss = Except.ok ss' →
      sortedFrom bound (stdKindsOf ss') = true := by
  induction ss with
  | nil =>
      intro bound ss' hb _ h
      injection h with h'
      subst h'
      simp only [show stdKindsOf [Section.exportSec (Blob.val [e])] = [7] from rfl,
        sortedFrom, Bool.and_eq_true, decide_eq_true_eq]
      exact ⟨hb, trivial⟩
  | cons s rest ih =>
      intro bound ss' hb hord h
      by_cases hexp : isExportSec s = true
      · obtain ⟨b, rfl⟩ := getExportBlob_of_isExportSec s hexp
        rw [insertMallocEntry_cons_export] at h
        cases b with
        | err e3 => exact absurd h (by simp [Blob.try_contents])
        | val l =>
            injection h with h'
            subst h'
            exact hord
      · have h8 := isExportSec_false_from_not s hexp
        by_cases hhigh : sectionOrder s > 7
        · rw [insertMallocEntry_cons_high e s rest hhigh] at h
          injection h with h'
          subst h'
          have hcs : isCustomSec s = false := isCustomSec_false_of_high s hhigh
          rw [stdKindsOf_cons_std s rest hcs, sortedFrom, Bool.and_eq_true,
            decide_eq_true_eq] at hord
          rw [show stdKindsOf (Section.exportSec (Blob.val [e]) :: s :: rest) =
            7 :: stdKindsOf (s :: rest) from rfl,
            stdKindsOf_cons_std s rest hcs]
          simp only [sortedFrom, Bool.and_eq_true, decide_eq_true_eq]
          exact ⟨hb, hhigh, hord.2⟩
        · rw [insertMallocEntry_cons_low e s rest
            (sectionOrder_lt_of s h8 hhigh)] at h
          cases hrec : insertMallocEntry e rest with
          | error e2 =>
              rw [hrec] at h
              exact absurd h (by simp)
          | ok rest' =>
              rw [hrec] at h
              injection h with h'
              subst h'
              cases hc : isCustomSec s with
              | true =>
                  rw [stdKindsOf_cons_custom s rest hc] at hord
                  rw [stdKindsOf_cons_custom s rest' hc]
                  exact ih bound rest' hb hord hrec
              | false =>
                  have hlow := sectionOrder_lt_of s h8 hhigh
                  rw [stdKindsOf_cons_std s rest hc, sortedFrom,
                    Bool.and_eq_true] at hord
                  rw [stdKindsOf_cons_std s rest' hc]
                  simp only [sortedFrom, Bool.and_eq_true]
                  exact ⟨hord.1, ih (sectionOrder s) rest' hlow hord.2 hrec⟩

/-- C9: whenever the engine's outcome is Found id, the mutator appends exactly
the one new entry (malloc, Func id) at the end of the export list, creating
the export section at its canonical position when absent: all pre-existing
export entries are preserved in their original order and every section other
than the export section is unchanged. -/
theorem mutator_appends_single_export (m m' : Module) (i : FuncId)
    (hord : stdOrdered m.sections = true)
    (hdet : detect m = Except.ok (Outcome.found i))
    (hrun : export_malloc m = Except.ok m') :
    nonExportSections m'.sections = nonExportSections m.sections ∧
      exportEntriesVal m'.sections =
        exportEntriesVal m.sections ++ [⟨"malloc", ExportDesc.func i⟩] ∧
      stdOrdered m'.sections = true := by
  have hpush : pushMalloc m i = Except.ok m' := by
    rw [export_malloc_eq_detect, hdet] at hrun
    exact hrun
  unfold pushMalloc at hpush
  cases hins : insertMallocEntry ⟨"malloc", ExportDesc.func i⟩ m.sections with
  | error e =>
      rw [hins] at hpush
      exact absurd hpush (by simp)
  | ok ss' =>
      rw [hins] at hpush
      injection hpush with h
      subst h
      exact ⟨insertMallocEntry_nonExport _ m.sections ss' hins,
        insertMallocEntry_entries _ m.sections 0 ss' hord hins,
        insertMallocEntry_sorted _ m.sections 0 ss' (by decide) hord hins⟩

/-- C9 witness: exC9 is canonically ordered and its dlmalloc export makes the
engine conclude Found 2; the run keeps the type and code sections, preserves
the old export entry and appends (malloc, Func 2). -/
theorem mutator_appends_single_export_witness :
    stdOrdered exC9.sections = true ∧
      detect exC9 = Except.ok (Outcome.found ⟨2⟩) ∧
      (nonExportSections
          [Section.typeSec (Blob.val [⟨[ValueType.i32], [ValueType.i32]⟩]),
           Section.exportSec (Blob.val
             [⟨"dlmalloc", ExportDesc.func ⟨2⟩⟩,
              ⟨"malloc", ExportDesc.func ⟨2⟩⟩]),
           Section.code (Blob.val [])] = nonExportSections exC9.sections ∧
        exportEntriesVal
          [Section.typeSec (Blob.val [⟨[ValueType.i32], [ValueType.i32]⟩]),
           Section.exportSec (Blob.val
             [⟨"dlmalloc", ExportDesc.func ⟨2⟩⟩,
              ⟨"malloc", ExportDesc.func ⟨2⟩⟩]),
           Section.code (Blob.val [])] =
          exportEntriesVal exC9.sections ++ [⟨"malloc", ExportDesc.func ⟨2⟩⟩] ∧
        stdOrdered
          [Section.typeSec (Blob.val [⟨[ValueType.i32], [ValueType.i32]⟩]),
           Section.exportSec (Blob.val
             [⟨"dlmalloc", ExportDesc.func ⟨2⟩⟩,
              ⟨"malloc", ExportDesc.func ⟨2⟩⟩]),
           Section.code (Blob.val [])] = true) :=
  ⟨by decide, by decide,
    mutator_appends_single_export exC9
      ⟨[Section.typeSec (Blob.val [⟨[ValueType.i32], [ValueType.i32]⟩]),
        Section.exportSec (Blob.val
          [⟨"dlmalloc", ExportDesc.func ⟨2⟩⟩,
           ⟨"malloc", ExportDesc.func ⟨2⟩⟩]),
        Section.code (Blob.val [])]⟩
      ⟨2⟩ (by decide) (by decide) (by decide)⟩

end FindMalloc
